import Mathlib

/-!
Shallow embedding of the firmware-update bootloader `src/fw_update.c`
(Greaseweazle update bootloader).  The core is a polled state machine
with three session states, a 256-byte receive buffer with fill count
`u_prod`, an update progress record `update = {len, cur}`, a flash
region `[FIRMWARE_START, FIRMWARE_END)` and a CRC check on completion.

External capabilities (USB transport, flash primitives, CRC) are
modelled as: per-tick transport inputs (an optional delivered byte
list and a tx-ready flag), a flash byte store `Nat → Nat`, an
append-only operation trace recording erases / flash writes / USB
transmissions, and a checksum function carried in a `Caps` record.
The receive buffer is modelled as the list of its live bytes, whose
length is the fill count `u_prod`.
-/

namespace FwUpdate

/-- `#define FIRMWARE_START 0x08002000` -/
def FIRMWARE_START : Nat := 0x08002000

/-- `#define FIRMWARE_END 0x08010000` -/
def FIRMWARE_END : Nat := 0x08010000

/-- Modelled from the spec: command id constants (`1 = get-info, 2 = update
(reference values)`); the header defining `CMD_GET_INFO` is not in the
sources. -/
def CMD_GET_INFO : Nat := 1

/-- Modelled from the spec: command id constants; `CMD_UPDATE` is the
largest supported command id (`gw_info.max_cmd = CMD_UPDATE`). -/
def CMD_UPDATE : Nat := 2

/-- Modelled from the spec: acknowledgement status byte, `0 = ok`. -/
def ACK_OKAY : Nat := 0

/-- Modelled from the spec: acknowledgement status byte, `1 = bad command`. -/
def ACK_BAD_COMMAND : Nat := 1

/-- The session state enum `{ST_inactive, ST_command_wait, ST_update}`. -/
inductive SessState where
  | inactive
  | command_wait
  | update_st
  deriving DecidableEq

/-- One observable side effect: a flash page-range erase, a flash write of
a byte chunk at an address, or a USB transmission of an ack frame. -/
inductive Op where
  | erase
  | flashWrite (addr : Nat) (data : List Nat)
  | txWrite (data : List Nat)
  deriving DecidableEq

/-- External capabilities: the CRC-16/CCITT primitive (applied to the byte
list read back from flash, seed folded in) and the boot-time constants
`fw_major`, `fw_minor`, `pa14_strapped`. -/
structure Caps where
  crc16 : List Nat → Nat
  fw_major : Nat
  fw_minor : Nat
  pa14_strapped : Bool

/-- The mutable global state of `fw_update.c`: session state, receive
buffer (live bytes; length = `u_prod`), `update.len`, `update.cur`,
flash contents, and the trace of externally visible operations. -/
structure GWState where
  state : SessState
  u_buf : List Nat
  upLen : Nat
  upCur : Nat
  flash : Nat → Nat
  ops : List Op

/-- Read `n` flash bytes starting at address `a`. -/
def readFlash (f : Nat → Nat) (a n : Nat) : List Nat :=
  (List.range n).map (fun i => f (a + i))

/-- Flash erase of the whole firmware region: `erase_old_firmware` loops
`fpec_page_erase` over every page of `[FIRMWARE_START, FIRMWARE_END)`
(page size external); erased bytes read back as `0xff`. -/
def eraseRegion (f : Nat → Nat) : Nat → Nat :=
  fun a => if FIRMWARE_START ≤ a ∧ a < FIRMWARE_END then 0xff else f a

/-- `fpec_write(dat, nr, addr)`: store `data` at addresses
`[addr, addr + data.length)`. -/
def writeFlash (f : Nat → Nat) (addr : Nat) (data : List Nat) : Nat → Nat :=
  fun a => if addr ≤ a ∧ a < addr + data.length then data.getD (a - addr) 0 else f a

/-- `update_reset`: USB reset callback, `state = ST_inactive`. -/
def update_reset (s : GWState) : GWState :=
  { s with state := SessState.inactive }

/-- `update_configure`: USB configure callback, `state = ST_command_wait;
u_prod = 0`. -/
def update_configure (s : GWState) : GWState :=
  { s with state := SessState.command_wait, u_buf := [] }

/-- `end_command(ack, ack_len)`: `usb_write(EP_TX, ack, ack_len); u_prod = 0`. -/
def end_command (s : GWState) (ack : List Nat) : GWState :=
  { s with ops := s.ops ++ [Op.txWrite ack], u_buf := [] }

/-- `erase_old_firmware`: erase every page spanning the firmware region. -/
def erase_old_firmware (s : GWState) : GWState :=
  { s with flash := eraseRegion s.flash, ops := s.ops ++ [Op.erase] }

/-- `update_prep(len)`: `fpec_init(); erase_old_firmware(); state = ST_update;
update.cur = 0; update.len = len;`. -/
def update_prep (s : GWState) (len : Nat) : GWState :=
  let s1 := erase_old_firmware s
  { s1 with state := SessState.update_st, upCur := 0, upLen := len }

/-- First block of `update_continue`: `if ((len = ep_rx_ready(EP_RX)) >= 0)
{ usb_read(EP_RX, &u_buf[u_prod], len); u_prod += len; }` — unconditional
append of any delivered bytes (no room check).  Bytes are stored into the
`uint8_t` array, hence reduced mod 256. -/
def update_ingest (s : GWState) (rx : Option (List Nat)) : GWState :=
  match rx with
  | none => s
  | some d => { s with u_buf := s.u_buf ++ d.map (fun b => b % 256) }

/-- Second block of `update_continue`: if `u_prod >= 2`, write the even
chunk `nr = len & ~1` to flash at `FIRMWARE_START + update.cur`, advance
`update.cur`, and compact the odd remainder to the buffer front. -/
def update_flush (s : GWState) : GWState :=
  let len := s.u_buf.length
  if len ≥ 2 then
    let nr := len - len % 2
    let chunk := s.u_buf.take nr
    { s with
      flash := writeFlash s.flash (FIRMWARE_START + s.upCur) chunk,
      ops := s.ops ++ [Op.flashWrite (FIRMWARE_START + s.upCur) chunk],
      upCur := s.upCur + nr,
      u_buf := s.u_buf.drop nr }
  else s

/-- Third block of `update_continue`: if `update.cur >= update.len` and
the TX endpoint is ready, compute the CRC over `update.len` bytes at
`FIRMWARE_START`, set `u_buf[0] = !!crc`, return to `ST_command_wait`,
send the 1-byte result via `end_command(u_buf, 1)`, and on nonzero CRC
re-erase the firmware region. -/
def update_finalize (caps : Caps) (s : GWState) (txReady : Bool) : GWState :=
  if s.upCur ≥ s.upLen ∧ txReady then
    let crc := caps.crc16 (readFlash s.flash FIRMWARE_START s.upLen)
    let result : Nat := if crc = 0 then 0 else 1
    let s1 := end_command { s with state := SessState.command_wait } [result]
    if crc = 0 then s1 else erase_old_firmware s1
  else s

/-- `update_continue`: ingest, flush, finalize — the `ST_update` tick. -/
def update_continue (caps : Caps) (s : GWState) (rx : Option (List Nat))
    (txReady : Bool) : GWState :=
  update_finalize caps (update_flush (update_ingest s rx)) txReady

/-- Little-endian 32-bit decode: `*(uint32_t *)&u_buf[2]`. -/
def le32 (b0 b1 b2 b3 : Nat) : Nat :=
  b0 + 256 * b1 + 65536 * b2 + 16777216 * b3

/-- Modelled from the spec: the serialized `struct gw_info` record (its
declaration is not in the sources).  Per the spec the fixed record holds
max-supported-protocol-revision (0 = update agent, from the initializer
`.max_rev = 0`), max-supported-command-id (`.max_cmd = CMD_UPDATE`),
firmware version major/minor, and a flags byte whose bit 0 is the PA14
strap reading; the response payload is zero-padded to 32 bytes
(`memset(&u_buf[2], 0, 32)` then `memcpy` of the record). -/
def encode_gw_info (caps : Caps) : List Nat :=
  [0, CMD_UPDATE, caps.fw_major % 256, caps.fw_minor % 256,
   if caps.pa14_strapped then 1 else 0] ++ List.replicate 27 0

/-- `process_command`: dispatch on `u_buf[0]`, validate, perform the side
effect, and send the acknowledgement (which clears the buffer).  The
response byte 0 is the echoed command id (never overwritten); byte 1
becomes `ACK_OKAY` or `ACK_BAD_COMMAND`. -/
def process_command (caps : Caps) (s : GWState) : GWState :=
  let cmd := s.u_buf.getD 0 0
  let len := s.u_buf.getD 1 0
  if cmd = CMD_GET_INFO then
    if len = 3 ∧ s.u_buf.getD 2 0 = 0 then
      end_command s ([cmd, ACK_OKAY] ++ encode_gw_info caps)
    else
      end_command s [cmd, ACK_BAD_COMMAND]
  else if cmd = CMD_UPDATE then
    let u_len := le32 (s.u_buf.getD 2 0) (s.u_buf.getD 3 0)
      (s.u_buf.getD 4 0) (s.u_buf.getD 5 0)
    if len = 6 ∧ u_len % 4 = 0 then
      end_command (update_prep s u_len) [cmd, ACK_OKAY]
    else
      end_command s [cmd, ACK_BAD_COMMAND]
  else
    end_command s [cmd, ACK_BAD_COMMAND]

/-- The `ST_command_wait` tick of `update_process`: ingest delivered
bytes only when `len < sizeof(u_buf) - u_prod` (room check, capacity
256), then run `process_command` when a complete frame
(`u_prod >= 2 && u_prod >= u_buf[1]`) is present and TX is ready. -/
def command_wait_tick (caps : Caps) (s : GWState) (rx : Option (List Nat))
    (txReady : Bool) : GWState :=
  let s1 :=
    match rx with
    | none => s
    | some d =>
        if d.length < 256 - s.u_buf.length then
          { s with u_buf := s.u_buf ++ d.map (fun b => b % 256) }
        else s
  if s1.u_buf.length ≥ 2 ∧ s1.u_buf.length ≥ s1.u_buf.getD 1 0 ∧ txReady then
    process_command caps s1
  else s1

/-- `update_process`: one poll tick, dispatching on the session state;
the three cases are mutually exclusive. -/
def update_process (caps : Caps) (s : GWState) (rx : Option (List Nat))
    (txReady : Bool) : GWState :=
  match s.state with
  | SessState.command_wait => command_wait_tick caps s rx txReady
  | SessState.update_st => update_continue caps s rx txReady
  | SessState.inactive => s

/-- Environment events driving the machine: the USB reset and configure
callbacks, and one iteration of the main poll loop together with the
transport observations of that tick. -/
inductive Event where
  | reset
  | configure
  | tick (rx : Option (List Nat)) (txReady : Bool)

/-- One step of the whole system on an environment event. -/
def step (caps : Caps) (s : GWState) : Event → GWState
  | Event.reset => update_reset s
  | Event.configure => update_configure s
  | Event.tick rx tx => update_process caps s rx tx

/-- Boot state: `state = ST_inactive` (static initializer), empty buffer
and counters (BSS), flash contents `f0`, empty trace. -/
def initState (f0 : Nat → Nat) : GWState :=
  { state := SessState.inactive, u_buf := [], upLen := 0, upCur := 0,
    flash := f0, ops := [] }

/-- States reachable from boot under arbitrary environment events. -/
inductive Reachable (caps : Caps) (f0 : Nat → Nat) : GWState → Prop where
  | init : Reachable caps f0 (initState f0)
  | step : ∀ {s : GWState}, Reachable caps f0 s → ∀ e : Event,
      Reachable caps f0 (step caps s e)

/-- Number of bytes delivered by one tick of transport input. -/
def rxLen : Option (List Nat) → Nat
  | none => 0
  | some d => d.length

/-- Concrete capability instance used by the concrete runs: a checksum
that accepts everything, firmware version 1.0, strap not set. -/
def caps0 : Caps :=
  { crc16 := fun _ => 0, fw_major := 1, fw_minor := 0, pa14_strapped := false }

/-- Concrete boot flash contents for the concrete runs. -/
def f0 : Nat → Nat := fun _ => 0

/-- The state right after the USB configure callback at boot. -/
def sCW : GWState := update_configure (initState f0)

/-- The state after the configure callback and one tick delivering the
complete update request `[2, 6, 4, 0, 0, 0]` (image length 4): the
request is accepted, the region erased, the ok ack sent, and the
machine is armed in `ST_update` with `update.len = 4`. -/
def sA : GWState := step caps0 sCW (Event.tick (some [2, 6, 4, 0, 0, 0]) true)

section Lemmas

lemma end_command_state (s : GWState) (a : List Nat) :
    (end_command s a).state = s.state := rfl

lemma end_command_buf (s : GWState) (a : List Nat) :
    (end_command s a).u_buf = [] := rfl

lemma process_command_buf (caps : Caps) (s : GWState) :
    (process_command caps s).u_buf = [] := by
  simp only [process_command]
  split_ifs <;> rfl

lemma process_command_state (caps : Caps) (s : GWState) :
    (process_command caps s).state = s.state ∨
    (process_command caps s).state = SessState.update_st := by
  simp only [process_command]
  split_ifs <;>
    simp [end_command, update_prep, erase_old_firmware]

lemma update_ingest_state (s : GWState) (rx : Option (List Nat)) :
    (update_ingest s rx).state = s.state := by
  cases rx <;> rfl

lemma update_ingest_len (s : GWState) (rx : Option (List Nat)) :
    (update_ingest s rx).u_buf.length = s.u_buf.length + rxLen rx := by
  cases rx <;> simp [update_ingest, rxLen]

lemma update_flush_buf_le_one (s : GWState) :
    (update_flush s).u_buf.length ≤ 1 := by
  simp only [update_flush]
  split_ifs with h
  · simp only [List.length_drop]
    omega
  · omega

lemma update_flush_state (s : GWState) :
    (update_flush s).state = s.state := by
  simp only [update_flush]
  split_ifs <;> rfl

lemma update_finalize_buf (caps : Caps) (s : GWState) (tx : Bool) :
    (update_finalize caps s tx).u_buf = [] ∨ update_finalize caps s tx = s := by
  simp only [update_finalize]
  split_ifs <;> simp [end_command, erase_old_firmware]

lemma update_finalize_state (caps : Caps) (s : GWState) (tx : Bool) :
    (update_finalize caps s tx).state = SessState.command_wait ∨
    update_finalize caps s tx = s := by
  simp only [update_finalize]
  split_ifs <;> simp [end_command, erase_old_firmware]

lemma command_wait_tick_state (caps : Caps) (s : GWState)
    (rx : Option (List Nat)) (tx : Bool)
    (h : s.state = SessState.command_wait) :
    (command_wait_tick caps s rx tx).state = SessState.command_wait ∨
    (command_wait_tick caps s rx tx).state = SessState.update_st := by
  cases rx with
  | none =>
    simp only [command_wait_tick]
    split_ifs with hp
    · rcases process_command_state caps s with hq | hq
      · left
        rw [hq, h]
      · right
        exact hq
    · left
      exact h
  | some d =>
    simp only [command_wait_tick]
    split_ifs with hroom hp hp2
    · rcases process_command_state caps
        { s with u_buf := s.u_buf ++ d.map (fun b => b % 256) } with hq | hq
      · left
        rw [hq]
        exact h
      · right
        exact hq
    · left
      exact h
    · rcases process_command_state caps s with hq | hq
      · left
        rw [hq, h]
      · right
        exact hq
    · left
      exact h

lemma update_continue_state (caps : Caps) (s : GWState)
    (rx : Option (List Nat)) (tx : Bool)
    (h : s.state = SessState.update_st) :
    (update_continue caps s rx tx).state = SessState.update_st ∨
    (update_continue caps s rx tx).state = SessState.command_wait := by
  unfold update_continue
  rcases update_finalize_state caps (update_flush (update_ingest s rx)) tx with hf | hf
  · right
    exact hf
  · left
    rw [hf, update_flush_state, update_ingest_state, h]

end Lemmas

/-- The intermediate state during the completing tick of the concrete
4-byte update: `sA` after ingesting and flushing the payload `[1,2,3,4]`. -/
def sB : GWState := update_flush (update_ingest sA (some [1, 2, 3, 4]))

/-- Recogniser for USB transmission operations in the trace. -/
def isTx : Op → Bool
  | Op.txWrite _ => true
  | _ => false

/-- C6.  During an update, whenever the receive buffer holds at least two
bytes, exactly the largest even-length prefix of the buffer is written to
storage at the current write offset, the write-offset counter advances by
that prefix length, and the remaining odd byte (if any) is compacted to
the buffer front with the fill count reduced accordingly. -/
theorem C6_flush (s : GWState) (h : 2 ≤ s.u_buf.length) :
    (update_flush s).ops = s.ops ++
      [Op.flashWrite (FIRMWARE_START + s.upCur)
        (s.u_buf.take (s.u_buf.length - s.u_buf.length % 2))] ∧
    (update_flush s).flash = writeFlash s.flash (FIRMWARE_START + s.upCur)
      (s.u_buf.take (s.u_buf.length - s.u_buf.length % 2)) ∧
    (update_flush s).upCur =
      s.upCur + (s.u_buf.length - s.u_buf.length % 2) ∧
    (update_flush s).u_buf =
      s.u_buf.drop (s.u_buf.length - s.u_buf.length % 2) ∧
    (update_flush s).u_buf.length = s.u_buf.length % 2 ∧
    (s.u_buf.length - s.u_buf.length % 2) % 2 = 0 ∧
    (∀ m, m % 2 = 0 → m ≤ s.u_buf.length →
      m ≤ s.u_buf.length - s.u_buf.length % 2) := by
  unfold update_flush
  rw [if_pos h]
  refine ⟨rfl, rfl, rfl, rfl, ?_, ?_, ?_⟩
  · simp only [List.length_drop]
    omega
  · omega
  · intro m hm hle
    omega

/-- Witness for C6 at a concrete buffer of five bytes. -/
theorem C6_flush_witness :
    (2 ≤ (sCW.u_buf ++ [10, 11, 12, 13, 14]).length) ∧
    (update_flush { sCW with u_buf := [10, 11, 12, 13, 14] }).u_buf =
      [10, 11, 12, 13, 14].drop 4 := by
  refine ⟨by decide, ?_⟩
  have h := C6_flush { sCW with u_buf := [10, 11, 12, 13, 14] } (by decide)
  exact h.2.2.2.1

/-- C4.  At update finalization, the checksum is computed over the written
region using the expected total length; a zero result yields success byte
0, a nonzero result yields failure byte 1, and on failure the entire
target region is re-erased after the result is emitted; in both cases
the session returns to CommandWait with the buffer cleared. -/
theorem C4_finalize (caps : Caps) (s s1 : GWState) (rx : Option (List Nat)) (c : Nat)
    (hst : s.state = SessState.update_st)
    (hs1 : s1 = update_flush (update_ingest s rx))
    (hc : c = caps.crc16 (readFlash s1.flash FIRMWARE_START s1.upLen))
    (hcomp : s1.upCur ≥ s1.upLen) :
    (update_process caps s rx true).state = SessState.command_wait ∧
    (update_process caps s rx true).u_buf = [] ∧
    (update_process caps s rx true).ops =
      s1.ops ++ [Op.txWrite [if c = 0 then 0 else 1]] ++
        (if c = 0 then [] else [Op.erase]) ∧
    (c = 0 → (update_process caps s rx true).flash = s1.flash) ∧
    (c ≠ 0 → (update_process caps s rx true).flash = eraseRegion s1.flash) ∧
    s1.upLen = s.upLen ∧
    (update_process caps s rx true).upCur = s1.upCur := by
  have hlen : s1.upLen = s.upLen := by
    rw [hs1]
    simp only [update_flush]
    split_ifs
    · cases rx <;> rfl
    · cases rx <;> rfl
  simp only [update_process, hst]
  unfold update_continue
  rw [← hs1]
  simp only [update_finalize, ← hc]
  rw [if_pos ⟨hcomp, trivial⟩]
  split_ifs with hz
  · exact ⟨rfl, rfl, by simp [end_command, hz], fun _ => rfl,
      fun hn => absurd hz hn, hlen, rfl⟩
  · exact ⟨rfl, rfl, by simp [end_command, erase_old_firmware, hz], fun hz2 => absurd hz2 hz,
      fun _ => rfl, hlen, rfl⟩

/-- Witness for C4 at the concrete completing 4-byte update run. -/
theorem C4_finalize_witness :
    (update_process caps0 sA (some [1, 2, 3, 4]) true).state = SessState.command_wait ∧
    (update_process caps0 sA (some [1, 2, 3, 4]) true).u_buf = [] :=
  let h := C4_finalize caps0 sA sB (some [1, 2, 3, 4])
    (caps0.crc16 (readFlash sB.flash FIRMWARE_START sB.upLen))
    (by decide) rfl rfl (by decide)
  ⟨h.1, h.2.1⟩

/-- C5.  An update request whose image length is not a multiple of 4, or
whose declared frame length is not 6, is acknowledged with the minimal
2-byte bad-command response; no storage erase occurs, the session stays
in CommandWait, and the receive buffer is cleared. -/
theorem C5_bad_update_request (caps : Caps) (s : GWState)
    (hst : s.state = SessState.command_wait)
    (hcmd : s.u_buf.getD 0 0 = CMD_UPDATE)
    (h2 : s.u_buf.length ≥ 2)
    (hcomp : s.u_buf.length ≥ s.u_buf.getD 1 0)
    (hbad : s.u_buf.getD 1 0 ≠ 6 ∨
      le32 (s.u_buf.getD 2 0) (s.u_buf.getD 3 0)
        (s.u_buf.getD 4 0) (s.u_buf.getD 5 0) % 4 ≠ 0) :
    (update_process caps s none true).state = SessState.command_wait ∧
    (update_process caps s none true).u_buf = [] ∧
    (update_process caps s none true).ops =
      s.ops ++ [Op.txWrite [CMD_UPDATE, ACK_BAD_COMMAND]] ∧
    (update_process caps s none true).flash = s.flash ∧
    (update_process caps s none true).upLen = s.upLen ∧
    (update_process caps s none true).upCur = s.upCur ∧
    Op.erase ∉ (update_process caps s none true).ops.drop s.ops.length := by
  simp only [update_process, hst, command_wait_tick]
  rw [if_pos ⟨h2, hcomp, trivial⟩]
  simp only [process_command, hcmd]
  rw [if_pos trivial,
    if_neg (show ¬ (s.u_buf.getD 1 0 = 6 ∧
      le32 (s.u_buf.getD 2 0) (s.u_buf.getD 3 0)
        (s.u_buf.getD 4 0) (s.u_buf.getD 5 0) % 4 = 0) by tauto)]
  refine ⟨hst, rfl, rfl, rfl, rfl, rfl, ?_⟩
  rw [if_neg (show ¬ CMD_UPDATE = CMD_GET_INFO by decide)]
  show Op.erase ∉ (s.ops ++ [Op.txWrite [CMD_UPDATE, ACK_BAD_COMMAND]]).drop s.ops.length
  rw [List.drop_left]
  decide

/-- Witness for C5: a complete update frame declaring image length 1. -/
theorem C5_bad_update_request_witness :
    (update_process caps0 { sCW with u_buf := [2, 6, 1, 0, 0, 0] } none true).state
        = SessState.command_wait ∧
    (update_process caps0 { sCW with u_buf := [2, 6, 1, 0, 0, 0] } none true).ops
        = sCW.ops ++ [Op.txWrite [CMD_UPDATE, ACK_BAD_COMMAND]] :=
  let h := C5_bad_update_request caps0 { sCW with u_buf := [2, 6, 1, 0, 0, 0] }
    (by decide) (by decide) (by decide) (by decide)
    (Or.inr (by decide))
  ⟨h.1, h.2.2.1⟩

/-- C7.  For the complete get-info request frame `[1, 3, 0]`, the first
two response bytes are `[1, 0]` (command id echoed, status ok), followed
by the fixed 32-byte zero-padded info record whose max-revision field is
the sentinel 0 marking the update agent. -/
theorem C7_get_info (caps : Caps) (s : GWState)
    (hst : s.state = SessState.command_wait) (hbuf : s.u_buf = []) :
    (update_process caps s (some [1, 3, 0]) true).ops =
      s.ops ++ [Op.txWrite ([CMD_GET_INFO, ACK_OKAY] ++ encode_gw_info caps)] ∧
    (update_process caps s (some [1, 3, 0]) true).state = SessState.command_wait ∧
    (update_process caps s (some [1, 3, 0]) true).u_buf = [] ∧
    (encode_gw_info caps).length = 32 ∧
    (encode_gw_info caps).getD 0 0 = 0 ∧
    (encode_gw_info caps).drop 5 = List.replicate 27 0 := by
  obtain ⟨st, bu, uL, uC, fl, op⟩ := s
  simp only at hst hbuf
  subst hst
  subst hbuf
  refine ⟨rfl, rfl, rfl, ?_, rfl, rfl⟩
  simp [encode_gw_info]

/-- Witness for C7 at the freshly configured state and concrete
capabilities. -/
theorem C7_get_info_witness :
    (update_process caps0 sCW (some [1, 3, 0]) true).ops =
      sCW.ops ++ [Op.txWrite ([CMD_GET_INFO, ACK_OKAY] ++ encode_gw_info caps0)] :=
  (C7_get_info caps0 sCW (by decide) (by decide)).1

/-- C9.  An update request declaring image length 0 passes the
multiple-of-4 check: it is accepted with an OK acknowledgement and the
whole target region is erased; on the first subsequent tick in the
Updating state the completion condition already holds with zero bytes
written, so the result acknowledgement is emitted without any payload
bytes having been received, the checksum being computed over a
zero-length region. -/
theorem C9_zero_length_update (caps : Caps) (s s1 : GWState) (c : Nat)
    (hst : s.state = SessState.command_wait) (hbuf : s.u_buf = [])
    (hs1 : s1 = update_process caps s (some [2, 6, 0, 0, 0, 0]) true)
    (hc : c = caps.crc16 []) :
    s1.state = SessState.update_st ∧ s1.upLen = 0 ∧ s1.upCur = 0 ∧
    s1.ops = (s.ops ++ [Op.erase]) ++ [Op.txWrite [CMD_UPDATE, ACK_OKAY]] ∧
    readFlash s1.flash FIRMWARE_START s1.upLen = [] ∧
    (update_process caps s1 none true).state = SessState.command_wait ∧
    (update_process caps s1 none true).upCur = 0 ∧
    (update_process caps s1 none true).ops =
      (s1.ops ++ [Op.txWrite [if c = 0 then 0 else 1]]) ++
        (if c = 0 then [] else [Op.erase]) := by
  obtain ⟨st, bu, uL, uC, fl, op⟩ := s
  simp only at hst hbuf
  subst hst
  subst hbuf
  subst hs1
  have h1 : update_process caps
      { state := SessState.command_wait, u_buf := [], upLen := uL, upCur := uC,
        flash := fl, ops := op } (some [2, 6, 0, 0, 0, 0]) true =
      { state := SessState.update_st, u_buf := [], upLen := 0, upCur := 0,
        flash := eraseRegion fl,
        ops := (op ++ [Op.erase]) ++ [Op.txWrite [CMD_UPDATE, ACK_OKAY]] } := rfl
  rw [h1]
  refine ⟨rfl, rfl, rfl, rfl, rfl, ?_⟩
  have h2 : update_process caps
      { state := SessState.update_st, u_buf := [], upLen := 0, upCur := 0,
        flash := eraseRegion fl,
        ops := (op ++ [Op.erase]) ++ [Op.txWrite [CMD_UPDATE, ACK_OKAY]] } none true =
      update_finalize caps
        { state := SessState.update_st, u_buf := [], upLen := 0, upCur := 0,
          flash := eraseRegion fl,
          ops := (op ++ [Op.erase]) ++ [Op.txWrite [CMD_UPDATE, ACK_OKAY]] } true := rfl
  rw [h2]
  simp only [update_finalize]
  rw [if_pos ⟨Nat.le_refl 0, trivial⟩,
    show readFlash (eraseRegion fl) FIRMWARE_START 0 = [] from rfl, ← hc]
  by_cases hc0 : c = 0 <;>
    simp [hc0, end_command, erase_old_firmware]

/-- Witness for C9 at the freshly configured state and concrete
capabilities. -/
theorem C9_zero_length_update_witness :
    (update_process caps0 (update_process caps0 sCW (some [2, 6, 0, 0, 0, 0]) true)
        none true).state = SessState.command_wait :=
  (C9_zero_length_update caps0 sCW
    (update_process caps0 sCW (some [2, 6, 0, 0, 0, 0]) true)
    (caps0.crc16 []) (by decide) (by decide) rfl rfl).2.2.2.2.2.1

/-- C10.  For a complete update command frame, acceptance is exactly:
declared frame length 6 and 4-byte little-endian image length a multiple
of 4; no comparison against the target region size (57344 bytes) is
made, so any multiple-of-4 length arms the engine with that length and
write offset 0 (writes start at the region base). -/
theorem C10_acceptance (caps : Caps) (s : GWState)
    (hst : s.state = SessState.command_wait)
    (hcmd : s.u_buf.getD 0 0 = CMD_UPDATE)
    (h2 : s.u_buf.length ≥ 2)
    (hcomp : s.u_buf.length ≥ s.u_buf.getD 1 0) :
    ((update_process caps s none true).state = SessState.update_st ↔
      (s.u_buf.getD 1 0 = 6 ∧
        le32 (s.u_buf.getD 2 0) (s.u_buf.getD 3 0)
          (s.u_buf.getD 4 0) (s.u_buf.getD 5 0) % 4 = 0)) ∧
    (s.u_buf.getD 1 0 = 6 ∧
        le32 (s.u_buf.getD 2 0) (s.u_buf.getD 3 0)
          (s.u_buf.getD 4 0) (s.u_buf.getD 5 0) % 4 = 0 →
      (update_process caps s none true).upLen =
        le32 (s.u_buf.getD 2 0) (s.u_buf.getD 3 0)
          (s.u_buf.getD 4 0) (s.u_buf.getD 5 0) ∧
      (update_process caps s none true).upCur = 0) ∧
    FIRMWARE_END - FIRMWARE_START = 57344 := by
  simp only [update_process, hst, command_wait_tick]
  rw [if_pos ⟨h2, hcomp, trivial⟩]
  simp only [process_command, hcmd]
  rw [if_neg (show ¬ CMD_UPDATE = CMD_GET_INFO by decide), if_pos trivial]
  split_ifs with hacc
  · exact ⟨iff_of_true rfl hacc, fun _ => ⟨rfl, rfl⟩, by decide⟩
  · refine ⟨iff_of_false ?_ hacc, fun h => absurd h hacc, by decide⟩
    rw [end_command_state, hst]
    decide

/-- Witness for C10: an update frame declaring image length 57348, which
exceeds the 57344-byte region, is still accepted and arms the engine. -/
theorem C10_acceptance_witness :
    (update_process caps0 { sCW with u_buf := [2, 6, 4, 224, 0, 0] } none true).state
        = SessState.update_st ∧
    (update_process caps0 { sCW with u_buf := [2, 6, 4, 224, 0, 0] } none true).upLen
        = 57348 := by
  have h := C10_acceptance caps0 { sCW with u_buf := [2, 6, 4, 224, 0, 0] }
    (by decide) (by decide) (by decide) (by decide)
  refine ⟨h.1.mpr (by decide), ?_⟩
  have h2 := (h.2.1 (by decide)).1
  rw [h2]
  decide

/-- C1 counterexample.  In the reachable Updating state `sA` the buffer is
empty, so room remains for at most 256 bytes; yet a tick delivering 257
bytes copies all of them (the ingest step of `update_continue` performs
no room check), pushing the fill count to 257, beyond the 256-byte
capacity. -/
theorem C1_cex :
    Reachable caps0 f0 sA ∧
    sA.state = SessState.update_st ∧
    sA.u_buf.length = 0 ∧
    (update_ingest sA (some (List.replicate 257 0))).u_buf.length = 257 ∧
    ¬ (update_ingest sA (some (List.replicate 257 0))).u_buf.length ≤ 256 := by
  refine ⟨?_, by decide, by decide, ?_, ?_⟩
  · exact Reachable.step (Reachable.step Reachable.init Event.configure)
      (Event.tick (some [2, 6, 4, 0, 0, 0]) true)
  · show (sA.u_buf ++ (List.replicate 257 0).map (fun b => b % 256)).length = 257
    rw [List.length_append, List.length_map, List.length_replicate]
    decide
  · show ¬ (sA.u_buf ++ (List.replicate 257 0).map (fun b => b % 256)).length ≤ 256
    rw [List.length_append, List.length_map, List.length_replicate]
    decide

/-- C2 counterexample.  From the reachable armed state `sA` with declared
length 4, a single tick delivering 6 payload bytes flushes all 6 to
storage: the bytes-written counter reaches 6, exceeding the declared
total of 4. -/
theorem C2_cex :
    Reachable caps0 f0 sA ∧
    sA.upLen = 4 ∧
    (update_process caps0 sA (some [1, 2, 3, 4, 5, 6]) false).upCur = 6 ∧
    ¬ (update_process caps0 sA (some [1, 2, 3, 4, 5, 6]) false).upCur ≤
      (update_process caps0 sA (some [1, 2, 3, 4, 5, 6]) false).upLen := by
  refine ⟨?_, by decide, by decide, by decide⟩
  exact Reachable.step (Reachable.step Reachable.init Event.configure)
    (Event.tick (some [2, 6, 4, 0, 0, 0]) true)

/-- C3 counterexample.  Completing the concrete 4-byte update emits the
completion acknowledgement as a single byte (`end_command(u_buf, 1)`),
not as a 2-byte header followed by a result byte: the final transmitted
frame is `[0]`, of length 1, not 3. -/
theorem C3_cex :
    Reachable caps0 f0 sA ∧
    (update_process caps0 sA (some [1, 2, 3, 4]) true).state
        = SessState.command_wait ∧
    (update_process caps0 sA (some [1, 2, 3, 4]) true).ops =
      [Op.erase, Op.txWrite [2, 0],
        Op.flashWrite FIRMWARE_START [1, 2, 3, 4], Op.txWrite [0]] ∧
    ¬ ([0] : List Nat).length = 2 + 1 := by
  refine ⟨?_, by decide, by decide, by decide⟩
  exact Reachable.step (Reachable.step Reachable.init Event.configure)
    (Event.tick (some [2, 6, 4, 0, 0, 0]) true)

/-- C8 counterexample.  In the reachable Updating state `sA` the update is
still in flight (0 of 4 bytes written), yet a transport configure event
moves the machine from Updating to CommandWait — a transition triggered
neither by completion nor by reset, and configure is claimed to apply
only to Inactive. -/
theorem C8_cex :
    Reachable caps0 f0 sA ∧
    sA.state = SessState.update_st ∧
    sA.upCur < sA.upLen ∧
    (step caps0 sA Event.configure).state = SessState.command_wait := by
  refine ⟨?_, by decide, by decide, by decide⟩
  exact Reachable.step (Reachable.step Reachable.init Event.configure)
    (Event.tick (some [2, 6, 4, 0, 0, 0]) true)

lemma inv_tick (caps : Caps) (s : GWState) (rx : Option (List Nat)) (tx : Bool)
    (h1 : s.u_buf.length ≤ 255)
    (h2 : s.state = SessState.update_st → s.u_buf.length ≤ 1) :
    (update_process caps s rx tx).u_buf.length ≤ 255 ∧
    ((update_process caps s rx tx).state = SessState.update_st →
      (update_process caps s rx tx).u_buf.length ≤ 1) := by
  cases hst : s.state with
  | inactive =>
    simp only [update_process, hst]
    exact ⟨h1, fun hh => by simp [hst] at hh⟩
  | command_wait =>
    simp only [update_process, hst]
    cases rx with
    | none =>
      simp only [command_wait_tick]
      split_ifs with hp
      · simp [process_command_buf]
      · exact ⟨h1, fun hh => by simp [hst] at hh⟩
    | some d =>
      simp only [command_wait_tick]
      split_ifs with hroom hp hp2
      · simp [process_command_buf]
      · constructor
        · simp only [List.length_append, List.length_map]
          omega
        · intro hh
          simp [hst] at hh
      · simp [process_command_buf]
      · exact ⟨h1, fun hh => by simp [hst] at hh⟩
  | update_st =>
    simp only [update_process, hst]
    unfold update_continue
    rcases update_finalize_buf caps (update_flush (update_ingest s rx)) tx with hf | hf
    · rw [hf]
      exact ⟨by simp, fun _ => by simp⟩
    · rw [hf]
      have hfl := update_flush_buf_le_one (update_ingest s rx)
      exact ⟨by omega, fun _ => hfl⟩

lemma inv_reachable (caps : Caps) (flash0 : Nat → Nat) (s : GWState)
    (h : Reachable caps flash0 s) :
    s.u_buf.length ≤ 255 ∧
    (s.state = SessState.update_st → s.u_buf.length ≤ 1) := by
  induction h with
  | init => exact ⟨by simp [initState], fun _ => by simp [initState]⟩
  | step hs e ih =>
    cases e with
    | reset =>
      refine ⟨ih.1, fun hh => ?_⟩
      exact absurd hh (by simp [step, update_reset])
    | configure =>
      exact ⟨by simp [step, update_configure], fun _ => by simp [step, update_configure]⟩
    | tick rx tx => exact inv_tick caps _ rx tx ih.1 ih.2

/-- C1 amended.  The room check exists only in CommandWait: there, a
delivery is ingested only when it strictly fits the remaining capacity,
and an oversized delivery is not ingested at all.  In the Updating state
ingestion is unconditional, but the fill count at every tick boundary is
at most 255 (at most 1 while Updating), so during an Updating tick the
fill count stays within the 256-byte capacity provided each delivery is
at most 255 bytes. -/
theorem C1_amended (caps : Caps) (flash0 : Nat → Nat) (s : GWState)
    (h : Reachable caps flash0 s) :
    s.u_buf.length ≤ 255 ∧
    (s.state = SessState.update_st → s.u_buf.length ≤ 1) ∧
    (∀ d : List Nat, s.state = SessState.update_st → d.length ≤ 255 →
      (update_ingest s (some d)).u_buf.length ≤ 256) ∧
    (∀ d : List Nat, s.state = SessState.command_wait →
      ¬ d.length < 256 - s.u_buf.length →
      update_process caps s (some d) false = s) := by
  obtain ⟨hl, hu⟩ := inv_reachable caps flash0 s h
  refine ⟨hl, hu, ?_, ?_⟩
  · intro d hst hd
    have := hu hst
    simp only [update_ingest, List.length_append, List.length_map]
    omega
  · intro d hst hroom
    simp only [update_process, hst, command_wait_tick]
    rw [if_neg hroom]
    rw [if_neg (by simp)]

/-- Witness for C1 amended at the boot state. -/
theorem C1_amended_witness :
    (initState f0).u_buf.length ≤ 255 :=
  (C1_amended caps0 f0 (initState f0) Reachable.init).1

lemma update_ingest_fields (s : GWState) (rx : Option (List Nat)) :
    (update_ingest s rx).upCur = s.upCur ∧ (update_ingest s rx).upLen = s.upLen ∧
    (update_ingest s rx).ops = s.ops := by
  cases rx <;> exact ⟨rfl, rfl, rfl⟩

lemma update_flush_fields (s : GWState) :
    (update_flush s).upLen = s.upLen ∧
    (update_flush s).upCur + (update_flush s).u_buf.length
      = s.upCur + s.u_buf.length ∧
    (update_flush s).upCur % 2 = s.upCur % 2 ∧
    (∀ a d, Op.flashWrite a d ∈ (update_flush s).ops →
      Op.flashWrite a d ∈ s.ops ∨ d.length % 2 = 0) := by
  simp only [update_flush]
  split_ifs with h
  · refine ⟨rfl, ?_, ?_, ?_⟩
    · simp only [List.length_drop]
      omega
    · show (s.upCur + (s.u_buf.length - s.u_buf.length % 2)) % 2 = s.upCur % 2
      omega
    · intro a d hd
      simp only [List.mem_append, List.mem_singleton] at hd
      rcases hd with hd | hd
      · exact Or.inl hd

      · right
        rw [Op.flashWrite.injEq] at hd
        rw [hd.2, List.length_take]
        omega
  · exact ⟨rfl, rfl, rfl, fun a d hd => Or.inl hd⟩

lemma update_finalize_fields (caps : Caps) (s : GWState) (tx : Bool) :
    (update_finalize caps s tx).upLen = s.upLen ∧
    (update_finalize caps s tx).upCur = s.upCur ∧
    (∀ a d, Op.flashWrite a d ∈ (update_finalize caps s tx).ops →
      Op.flashWrite a d ∈ s.ops) ∧
    ((update_finalize caps s tx).state = SessState.command_wait →
      s.state = SessState.command_wait ∨ s.upLen ≤ s.upCur) := by
  simp only [update_finalize]
  split_ifs with h hc
  · refine ⟨rfl, rfl, ?_, fun _ => Or.inr h.1⟩
    intro a d hd
    simp [end_command] at hd
    exact hd
  · refine ⟨rfl, rfl, ?_, fun _ => Or.inr h.1⟩
    intro a d hd
    simp [end_command, erase_old_firmware] at hd
    exact hd
  · exact ⟨rfl, rfl, fun a d hd => hd, fun hcw => Or.inl hcw⟩

lemma upd_tick (caps : Caps) (s : GWState) (rx : Option (List Nat)) (tx : Bool)
    (hst : s.state = SessState.update_st) :
    (update_process caps s rx tx).upLen = s.upLen ∧
    (update_process caps s rx tx).upCur % 2 = s.upCur % 2 ∧
    ((update_process caps s rx tx).state = SessState.update_st →
      (update_process caps s rx tx).upCur + (update_process caps s rx tx).u_buf.length
        = s.upCur + s.u_buf.length + rxLen rx) ∧
    ((update_process caps s rx tx).state = SessState.command_wait →
      s.upLen ≤ (update_process caps s rx tx).upCur ∧
      (update_process caps s rx tx).upCur ≤ s.upCur + s.u_buf.length + rxLen rx) ∧
    (∀ a d, Op.flashWrite a d ∈ (update_process caps s rx tx).ops →
      Op.flashWrite a d ∈ s.ops ∨ d.length % 2 = 0) ∧
    ((update_process caps s rx tx).state = SessState.update_st ∨
      (update_process caps s rx tx).state = SessState.command_wait) := by
  have hcont : update_process caps s rx tx = update_continue caps s rx tx := by
    simp [update_process, hst]
  obtain ⟨hIc, hIL, hIo⟩ := update_ingest_fields s rx
  have hIlen := update_ingest_len s rx
  have hIst := update_ingest_state s rx
  obtain ⟨hFL, hFsum, hFmod, hFops⟩ := update_flush_fields (update_ingest s rx)
  have hFst := update_flush_state (update_ingest s rx)
  obtain ⟨hZL, hZc, hZops, hZst⟩ :=
    update_finalize_fields caps (update_flush (update_ingest s rx)) tx
  have hcont2 : update_continue caps s rx tx =
      update_finalize caps (update_flush (update_ingest s rx)) tx := rfl
  rw [hcont, hcont2]
  refine ⟨?_, ?_, ?_, ?_, ?_, ?_⟩
  · rw [hZL, hFL, hIL]
  · rw [hZc]
    rw [hFmod, hIc]
  · intro hup
    rcases update_finalize_buf caps (update_flush (update_ingest s rx)) tx with hb | hb
    · rcases update_finalize_state caps (update_flush (update_ingest s rx)) tx with hq | hq
      · rw [hq] at hup
        cases hup
      · rw [hq]
        rw [hq] at hup
        omega
    · rw [hb]
      omega
  · intro hcw
    rcases hZst hcw with hq | hq
    · rw [hFst, hIst, hst] at hq
      cases hq
    · constructor
      · rw [hZc, ← hIL, ← hFL]
        exact hq
      · rw [hZc]
        omega
  · intro a d hd
    rcases hFops a d (hZops a d hd) with hq | hq
    · rw [hIo] at hq
      exact Or.inl hq
    · exact Or.inr hq
  · rw [← hcont2]
    exact update_continue_state caps s rx tx hst

/-- Runs of the Updating state: zero or more poll ticks taken from an
armed state, each tick taken only while the machine is still in
`ST_update` (the final tick may leave it); the `Nat` index counts the
total transport bytes delivered. -/
inductive UpdRun (caps : Caps) (s0 : GWState) : Nat → GWState → Prop where
  | start : UpdRun caps s0 0 s0
  | tick : ∀ {del : Nat} {s : GWState}, UpdRun caps s0 del s →
      s.state = SessState.update_st → ∀ (rx : Option (List Nat)) (tx : Bool),
      UpdRun caps s0 (del + rxLen rx) (update_process caps s rx tx)

lemma updRun_inv (caps : Caps) (s0 : GWState)
    (h0s : s0.state = SessState.update_st) (h0c : s0.upCur = 0)
    (h0b : s0.u_buf = []) {del : Nat} {s : GWState}
    (hrun : UpdRun caps s0 del s) :
    s.upLen = s0.upLen ∧ s.upCur % 2 = 0 ∧
    (s.state = SessState.update_st → s.upCur + s.u_buf.length = del) ∧
    (s.state = SessState.command_wait → s0.upLen ≤ s.upCur ∧ s.upCur ≤ del) ∧
    (∀ a d, Op.flashWrite a d ∈ s.ops →
      Op.flashWrite a d ∈ s0.ops ∨ d.length % 2 = 0) ∧
    (s.state = SessState.update_st ∨ s.state = SessState.command_wait) := by
  induction hrun with
  | start =>
    refine ⟨rfl, by rw [h0c], fun _ => by rw [h0c, h0b]; rfl,
      fun hcw => ?_, fun a d hd => Or.inl hd, Or.inl h0s⟩
    rw [h0s] at hcw
    cases hcw
  | tick hrun hst rx tx ih =>
    obtain ⟨ihL, ihev, ihsum, ihcw, ihops, ihstate⟩ := ih
    obtain ⟨tL, tev, tsum, tcw, tops, tstate⟩ := upd_tick caps _ rx tx hst
    refine ⟨tL.trans ihL, by rw [tev, ihev], ?_, ?_, ?_, tstate⟩
    · intro hup
      rw [tsum hup, ihsum hst]
    · intro hcw
      obtain ⟨tlo, thi⟩ := tcw hcw
      constructor
      · rw [← ihL]
        exact tlo
      · rw [ihsum hst] at thi
        exact thi
    · intro a d hd
      rcases tops a d hd with hq | hq
      · exact ihops a d hq
      · exact Or.inr hq

/-- C2 amended.  For every accepted update, the bytes-written counter is
always a multiple of the 2-byte write granularity and every storage write
is granularity-aligned, unconditionally; the counter never exceeds the
declared total length, and equals it exactly on completion, provided the
transport delivers no more than the declared number of bytes during the
update (the code never clamps against the declared length, so
over-delivery can push the counter past it, as the counterexample
shows). -/
theorem C2_amended (caps : Caps) (s0 : GWState) (L del : Nat) (s : GWState)
    (h0s : s0.state = SessState.update_st) (h0c : s0.upCur = 0)
    (h0b : s0.u_buf = []) (h0L : s0.upLen = L)
    (hrun : UpdRun caps s0 del s) (hdel : del ≤ L) :
    s.upCur % 2 = 0 ∧
    s.upCur ≤ L ∧
    (s.state = SessState.command_wait → s.upCur = L) ∧
    (∀ a d, Op.flashWrite a d ∈ s.ops →
      Op.flashWrite a d ∈ s0.ops ∨ d.length % 2 = 0) := by
  obtain ⟨hL, hev, hsum, hcw, hops, hstate⟩ := updRun_inv caps s0 h0s h0c h0b hrun
  rw [h0L] at hL hcw
  refine ⟨hev, ?_, ?_, hops⟩
  · rcases hstate with hup | hcw2
    · have := hsum hup
      omega
    · have := hcw hcw2
      omega
  · intro hcw2
    have := hcw hcw2
    omega

/-- Witness for C2 amended: one 2-byte tick of the armed 4-byte update. -/
theorem C2_amended_witness :
    (update_process caps0 sA (some [9, 9]) false).upCur % 2 = 0 :=
  (C2_amended caps0 sA 4 (0 + rxLen (some [9, 9]))
    (update_process caps0 sA (some [9, 9]) false)
    (by decide) (by decide) (by decide) (by decide)
    (UpdRun.tick UpdRun.start (by decide) (some [9, 9]) false)
    (by decide)).1

/-- C3 amended.  The update completion acknowledgement is a single result
byte — not a 2-byte header plus result byte: when the tick completes the
update, exactly one USB transmission is appended, its payload is the one
byte 0 on checksum success and 1 on mismatch, and the session leaves the
Updating state (so the acknowledgement is sent exactly once). -/
theorem C3_amended (caps : Caps) (s s1 : GWState) (rx : Option (List Nat)) (c : Nat)
    (hst : s.state = SessState.update_st)
    (hs1 : s1 = update_flush (update_ingest s rx))
    (hc : c = caps.crc16 (readFlash s1.flash FIRMWARE_START s1.upLen))
    (hcomp : s1.upCur ≥ s1.upLen) :
    (update_process caps s rx true).ops.filter isTx =
      s1.ops.filter isTx ++ [Op.txWrite [if c = 0 then 0 else 1]] ∧
    (update_process caps s rx true).state = SessState.command_wait ∧
    (update_process caps s rx true).u_buf = [] := by
  simp only [update_process, hst]
  unfold update_continue
  rw [← hs1]
  simp only [update_finalize, ← hc]
  rw [if_pos ⟨hcomp, trivial⟩]
  split_ifs with hz <;>
    simp [end_command, erase_old_firmware, isTx, List.filter_append]

/-- Witness for C3 amended at the concrete completing 4-byte update. -/
theorem C3_amended_witness :
    (update_process caps0 sA (some [1, 2, 3, 4]) true).ops.filter isTx =
      sB.ops.filter isTx ++
        [Op.txWrite [if caps0.crc16 (readFlash sB.flash FIRMWARE_START sB.upLen) = 0
          then 0 else 1]] :=
  (C3_amended caps0 sA sB (some [1, 2, 3, 4])
    (caps0.crc16 (readFlash sB.flash FIRMWARE_START sB.upLen))
    (by decide) rfl rfl (by decide)).1

/-- C8 amended.  The configure event moves any state (not only Inactive)
to CommandWait, clearing the buffer; reset moves any state to Inactive;
ticks in Inactive do nothing; a CommandWait tick runs exactly the
CommandWait processor and lands in CommandWait or (on an accepted update
command) Updating; an Updating tick runs exactly the Updating processor
and lands in Updating or (on completion) CommandWait.  The two
processors are mutually exclusive within a tick. -/
theorem C8_amended (caps : Caps) :
    (∀ s : GWState, (step caps s Event.reset).state = SessState.inactive) ∧
    (∀ s : GWState, (step caps s Event.configure).state = SessState.command_wait ∧
      (step caps s Event.configure).u_buf = []) ∧
    (∀ (s : GWState) (rx : Option (List Nat)) (tx : Bool),
      s.state = SessState.inactive → step caps s (Event.tick rx tx) = s) ∧
    (∀ (s : GWState) (rx : Option (List Nat)) (tx : Bool),
      s.state = SessState.command_wait →
        step caps s (Event.tick rx tx) = command_wait_tick caps s rx tx ∧
        ((step caps s (Event.tick rx tx)).state = SessState.command_wait ∨
         (step caps s (Event.tick rx tx)).state = SessState.update_st)) ∧
    (∀ (s : GWState) (rx : Option (List Nat)) (tx : Bool),
      s.state = SessState.update_st →
        step caps s (Event.tick rx tx) = update_continue caps s rx tx ∧
        ((step caps s (Event.tick rx tx)).state = SessState.update_st ∨
         (step caps s (Event.tick rx tx)).state = SessState.command_wait)) := by
  refine ⟨fun s => rfl, fun s => ⟨rfl, rfl⟩, ?_, ?_, ?_⟩
  · intro s rx tx h
    simp [step, update_process, h]
  · intro s rx tx h
    have he : step caps s (Event.tick rx tx) = command_wait_tick caps s rx tx := by
      simp [step, update_process, h]
    refine ⟨he, ?_⟩
    rw [he]
    exact command_wait_tick_state caps s rx tx h
  · intro s rx tx h
    have he : step caps s (Event.tick rx tx) = update_continue caps s rx tx := by
      simp [step, update_process, h]
    refine ⟨he, ?_⟩
    rw [he]
    exact update_continue_state caps s rx tx h

/-- Witness for C8 amended: reset from the Updating state `sA`, and the
Updating-tick dispatch equation at `sA`. -/
theorem C8_amended_witness :
    (step caps0 sA Event.reset).state = SessState.inactive ∧
    step caps0 sA (Event.tick none true) = update_continue caps0 sA none true :=
  ⟨(C8_amended caps0).1 sA,
    ((C8_amended caps0).2.2.2.2 sA none true (by decide)).1⟩

end FwUpdate
